import Mathlib

/-!
# ImageBlender: `overlay.cpp`

A shallow embedding of the blending, dial and loop logic of `overlay.cpp`, and the
properties of it that the specification states.

Conventions.
* A C++ `int` is an `Int`; every `int` subtraction, addition and multiplication of the
  source goes through `wrapInt32`, the 32-bit two's-complement result.
* An image (`cv::Mat`) is its size and a total pixel function; all images of this program
  are 8-bit, 3-channel (`CV_8UC3`: camera frames, `imread` results, `histImage`).
* A `double`/`float` value is the rational number it denotes. The library routines that
  compute in floating point (`cvRound`, `cv::addWeighted`, `cv::normalize`) are modelled
  in exact rational arithmetic. The theorems on the code evaluate them only where floating
  point is exact as well (weights 0 and 1, the quotient 200/256); elsewhere a blended value
  is named through `addWeightedElem` and a rounded value through `cvRound`, without being
  evaluated. The two theorems on the values these routines return (the blended pixel for
  every opacity, the normalised histogram) are theorems about the exact model; the
  floating-point rounding inside the library is outside it.
* The drawing routines of the library (`cv::line`, `cv::putText`) are not modelled; a
  drawing function is the list of the calls it makes, in order.
-/

namespace Overlay

/-! ## Machine integers -/

/-- The 32-bit two's-complement representative of an integer. -/
def wrapInt32 (z : Int) : Int := (z + 2147483648) % 4294967296 - 2147483648

/-- The value is representable as a C++ `int`. -/
def isInt32 (z : Int) : Prop := -2147483648 ≤ z ∧ z ≤ 2147483647

instance (z : Int) : Decidable (isInt32 z) := by unfold isInt32; infer_instance

/-- C++ `a - b` on `int`. -/
def sub32 (a b : Int) : Int := wrapInt32 (a - b)

/-- C++ `a + b` on `int`. -/
def add32 (a b : Int) : Int := wrapInt32 (a + b)

/-- C++ `a * b` on `int`. -/
def mul32 (a b : Int) : Int := wrapInt32 (a * b)

/-! ## Images and rectangles -/

/-- An 8-bit channel value (`uchar`). -/
abbrev UChar := Fin 256

/-- A `cv::Mat` of type `CV_8UC3`: `rows`, `cols` and the element at (row, column, channel). -/
structure Mat where
  rows : Int
  cols : Int
  data : Int → Int → Fin 3 → UChar

/-- The size fields of a matrix are non-negative `int`s. -/
def Mat.valid (m : Mat) : Prop := isInt32 m.rows ∧ isInt32 m.cols ∧ 0 ≤ m.rows ∧ 0 ≤ m.cols

instance (m : Mat) : Decidable m.valid := by unfold Mat.valid; infer_instance

/-- A `cv::Rect`: top-left corner `(x, y)`, `width` and `height`. -/
structure Rect where
  x : Int
  y : Int
  width : Int
  height : Int
deriving DecidableEq, Repr

/-- The pixel at row `i`, column `j` belongs to the rectangle (`x <= j < x + width`,
`y <= i < y + height`). -/
def Rect.covers (r : Rect) (i j : Int) : Prop :=
  r.y ≤ i ∧ i < r.y + r.height ∧ r.x ≤ j ∧ j < r.x + r.width

instance (r : Rect) (i j : Int) : Decidable (r.covers i j) := by
  unfold Rect.covers; infer_instance

/-- The check of `cv::Mat::operator()(const Rect&)`: the rectangle lies inside the matrix
(`0 <= roi.x && 0 <= roi.width && roi.x + roi.width <= m.cols` and the same for rows);
the library raises an error otherwise. -/
def Mat.roiOk (m : Mat) (r : Rect) : Prop :=
  0 ≤ r.x ∧ 0 ≤ r.width ∧ r.x + r.width ≤ m.cols ∧
  0 ≤ r.y ∧ 0 ≤ r.height ∧ r.y + r.height ≤ m.rows

instance (m : Mat) (r : Rect) : Decidable (m.roiOk r) := by unfold Mat.roiOk; infer_instance

/-! ## Library arithmetic -/

/-- The library's `cvRound`: the nearest integer, a tie going to the even one. -/
def cvRound (q : ℚ) : Int :=
  if q - ⌊q⌋ < 1 / 2 then ⌊q⌋
  else if 1 / 2 < q - ⌊q⌋ then ⌊q⌋ + 1
  else if ⌊q⌋ % 2 = 0 then ⌊q⌋ else ⌊q⌋ + 1

/-- The library's `saturate_cast<uchar>(int)`: clamp to `[0, 255]`. -/
def saturateUChar (v : Int) : UChar :=
  if h : v < 0 then 0
  else if h2 : 255 < v then 255
  else ⟨v.toNat, by omega⟩

/-- One element of `cv::addWeighted(src1, alpha, src2, beta, gamma, dst)`:
`saturate(src1*alpha + src2*beta + gamma)`, rounded to the nearest integer. -/
def addWeightedElem (a : UChar) (alpha : ℚ) (b : UChar) (beta gamma : ℚ) : UChar :=
  saturateUChar (cvRound ((a.val : ℚ) * alpha + (b.val : ℚ) * beta + gamma))

/-! ## `blendImage` -/

/-- The rectangle `calRoi` of `blendImage`: computed from the sizes and the offsets when
`roi == NULL`, the caller's rectangle otherwise. -/
def calRoi (srcImg overlayImg : Mat) (roi : Option Rect) (lastCols lastRows : Int) : Rect :=
  match roi with
  | none =>
    { x := sub32 (sub32 srcImg.cols overlayImg.cols) lastCols
      y := sub32 (sub32 srcImg.rows overlayImg.rows) lastRows
      width := overlayImg.cols
      height := overlayImg.rows }
  | some r => r

/-- The function `blendImage`: `cv::addWeighted(srcImg(calRoi), opacity, overlayImg,
1 - opacity, 0.0, srcImg(calRoi))`. The result is the new content of `srcImg`; `none` is the
library error for a rectangle outside `srcImg` or of another size than `overlayImg`. -/
def blendImage (srcImg overlayImg : Mat) (roi : Option Rect) (opacity : ℚ)
    (lastCols lastRows : Int) : Option Mat :=
  if Mat.roiOk srcImg (calRoi srcImg overlayImg roi lastCols lastRows) ∧
      (calRoi srcImg overlayImg roi lastCols lastRows).width = overlayImg.cols ∧
      (calRoi srcImg overlayImg roi lastCols lastRows).height = overlayImg.rows then
    some
      { rows := srcImg.rows
        cols := srcImg.cols
        data := fun i j c =>
          if (calRoi srcImg overlayImg roi lastCols lastRows).covers i j then
            addWeightedElem (srcImg.data i j c) opacity
              (overlayImg.data (i - (calRoi srcImg overlayImg roi lastCols lastRows).y)
                (j - (calRoi srcImg overlayImg roi lastCols lastRows).x) c)
              (1 - opacity) 0
          else srcImg.data i j c }
  else none

/-! ## The blends of `main` -/

/-- One call `blendImage(dst, overlay, NULL, opacity, lastCols, lastRows)`. -/
structure BlendCall where
  overlay : Mat
  opacity : ℚ
  lastCols : Int
  lastRows : Int

/-- The `blendImage` calls of one iteration of the loop of `main`, in source order:
`blendImage(dst, cargobay, NULL, 0.6)`, `blendImage(dst, pfd, NULL, 0.5, 0, cargobay.rows)`,
`blendImage(dst, histImage, NULL, 0.6, pfd.cols, cargobay.rows)`. Here `cargobay` is the
mission-plan image and `pfd` the flight-director image. -/
def mainBlends (cargobay pfd histImage : Mat) : List BlendCall :=
  [ { overlay := cargobay, opacity := 6 / 10, lastCols := 0, lastRows := 0 },
    { overlay := pfd, opacity := 5 / 10, lastCols := 0, lastRows := cargobay.rows },
    { overlay := histImage, opacity := 6 / 10, lastCols := pfd.cols,
      lastRows := cargobay.rows } ]

/-- The region a call blends into on the frame `dst`. -/
def BlendCall.region (dst : Mat) (c : BlendCall) : Rect :=
  calRoi dst c.overlay none c.lastCols c.lastRows

/-- Running a sequence of calls on the frame, each on the result of the one before. -/
def applyBlends : Mat → List BlendCall → Option Mat
  | dst, [] => some dst
  | dst, c :: cs =>
    (blendImage dst c.overlay none c.opacity c.lastCols c.lastRows).bind
      (fun d => applyBlends d cs)

/-- No pixel belongs to both rectangles. -/
def Rect.disjoint (r s : Rect) : Prop := ∀ i j : Int, ¬ (r.covers i j ∧ s.covers i j)

/-! ## Drawing calls -/

/-- A `cv::Point`. -/
structure Point where
  x : Int
  y : Int
deriving DecidableEq, Repr

/-- A `cv::Scalar` colour, its first three components. -/
structure Scalar where
  v0 : Int
  v1 : Int
  v2 : Int
deriving DecidableEq, Repr

/-- A drawing call made on an image: `cv::line(img, p1, p2, color, thickness, lineType)` or
`cv::putText(img, text, org, fontFace, fontScale, color, thickness, lineType)`. -/
inductive DrawCmd where
  | line (p1 p2 : Point) (color : Scalar) (thickness lineType : Int)
  | putText (text : String) (org : Point) (fontFace fontScale : Int) (color : Scalar)
      (thickness lineType : Int)
deriving DecidableEq, Repr

/-- A `cv::line` call with the given line type. -/
def DrawCmd.isLineOfType (t : Int) : DrawCmd → Bool
  | .line _ _ _ _ lt => lt == t
  | .putText .. => false

/-- A `cv::putText` call. -/
def DrawCmd.isText : DrawCmd → Bool
  | .line .. => false
  | .putText .. => true

/-! ## The dial -/

/-- The floating-point operations of the dial, kept abstract: `radians theta` is the
`double` value `-theta*CV_PI/180.0`, `cosInt o r t` is `static_cast<int>(o + r*cos(t))` and
`sinInt o r t` is `static_cast<int>(o + r*sin(t))`. -/
structure Trig (Angle : Type) where
  radians : Int → Angle
  cosInt : Int → Int → Angle → Int
  sinInt : Int → Int → Angle → Int

/-- The function `getTick`: the points of parameter `theta` on the ellipse of radii `(a, b)`
and on the ellipse of radii `(a+15, b+15)` around `origin`. -/
def getTick {Angle : Type} (T : Trig Angle) (theta : Angle) (a b : Int) (origin : Point) :
    Point × Point :=
  ( { x := T.cosInt origin.x a theta, y := T.sinInt origin.y b theta },
    { x := T.cosInt origin.x (add32 a 15) theta, y := T.sinInt origin.y (add32 b 15) theta } )

/-- The colour `cv::Scalar(110, 117, 63)` of the dial. -/
def dialColor : Scalar := { v0 := 110, v1 := 117, v2 := 63 }

/-- The body of the loop of `embedDial` for one `theta`: the tick segment, the label when
`theta % 30 == 0`, the line from the origin when `theta == 60`. -/
def embedDialStep {Angle : Type} (T : Trig Angle) (origin : Point) (x y theta : Int) :
    List DrawCmd :=
  [DrawCmd.line (getTick T (T.radians theta) x y origin).1
      (getTick T (T.radians theta) x y origin).2 dialColor 2 32]
  ++ (if Int.tmod theta 30 = 0 then
        [DrawCmd.putText (toString theta)
          { x := T.cosInt origin.x (add32 x 20) (T.radians theta),
            y := T.sinInt origin.y (add32 y 20) (T.radians theta) }
          1 1 dialColor 1 4]
      else [])
  ++ (if theta = 60 then
        [DrawCmd.line origin (getTick T (T.radians theta) x y origin).1 dialColor 2 8]
      else [])

/-- The loop `for (theta = 0; theta <= 120; theta += 10)` of `embedDial`, from `theta` on. -/
def embedDialLoop {Angle : Type} (T : Trig Angle) (origin : Point) (x y theta : Int) :
    List DrawCmd :=
  if theta ≤ 120 then
    embedDialStep T origin x y theta ++ embedDialLoop T origin x y (add32 theta 10)
  else []
termination_by (121 - theta).toNat
decreasing_by
  unfold add32 wrapInt32
  omega

/-- The function `embedDial`: the drawing calls it makes on `dst`, in order. -/
def embedDial {Angle : Type} (T : Trig Angle) (origin : Point) (x y : Int) : List DrawCmd :=
  embedDialLoop T origin x y 0

/-! ## The histogram panel -/

/-- The constant `histSize` of `main`. -/
def histSize : Int := 256

/-- The constant `hist_w` of `main`, the panel width. -/
def hist_w : Int := 200

/-- The constant `hist_h` of `main`, the panel height. -/
def hist_h : Int := 50

/-- The constant `bin_w = cvRound((double) hist_w / histSize)` of `main`. -/
def bin_w : Int := cvRound ((hist_w : ℚ) / (histSize : ℚ))

/-- The polyline vertex of bucket `i` for the histogram `hist`:
`cv::Point(bin_w*(i), hist_h - cvRound(hist.at<float>(i)))`. -/
def histVertex (hist : Int → ℚ) (i : Int) : Point :=
  { x := mul32 bin_w i, y := sub32 hist_h (cvRound (hist i)) }

/-- The body of the drawing loop for one `i`: the segment from bucket `i-1` to bucket `i` of
the blue, the green and the red histogram. -/
def drawHistStep (b_hist g_hist r_hist : Int → ℚ) (i : Int) : List DrawCmd :=
  [ DrawCmd.line (histVertex b_hist (sub32 i 1)) (histVertex b_hist i)
      { v0 := 255, v1 := 0, v2 := 0 } 2 8,
    DrawCmd.line (histVertex g_hist (sub32 i 1)) (histVertex g_hist i)
      { v0 := 0, v1 := 255, v2 := 0 } 2 8,
    DrawCmd.line (histVertex r_hist (sub32 i 1)) (histVertex r_hist i)
      { v0 := 0, v1 := 0, v2 := 255 } 2 8 ]

/-- The loop `for (int i = 1; i < histSize; i++)` of `main`, from `i` on. -/
def drawHistLoop (b_hist g_hist r_hist : Int → ℚ) (i : Int) : List DrawCmd :=
  if i < histSize then
    drawHistStep b_hist g_hist r_hist i ++ drawHistLoop b_hist g_hist r_hist (add32 i 1)
  else []
termination_by (histSize - i).toNat
decreasing_by
  unfold add32 wrapInt32
  unfold histSize at *
  omega

/-- The drawing calls of the histogram loop of `main` on `histImage`, in order. -/
def drawHistogram (b_hist g_hist r_hist : Int → ℚ) : List DrawCmd :=
  drawHistLoop b_hist g_hist r_hist 1

/-! ## Start-up and the frame loop of `main` -/

/-- What `main` observes of its environment: whether the capture source opened
(`cap.isOpened()`), whether each image was read (`pfd.data != NULL`,
`cargobay.data != NULL`), and the successive results of `cv::waitKey(1)`. -/
structure World where
  capOpened : Bool
  pfdLoaded : Bool
  cargobayLoaded : Bool
  keys : List Int
deriving DecidableEq, Repr

/-- A finished run of `main`: the value it returns and the number of loop iterations. -/
structure Run where
  exitCode : Int
  frames : Nat
deriving DecidableEq, Repr

/-- The loop `do ... while (cv::waitKey(1) != 27)`: `n` iterations are done, each further
iteration takes the next key. The result is the number of iterations at which the loop
ends; `none` when the keys run out with the loop still running. -/
def frameLoop : List Int → Nat → Option Nat
  | [], _ => none
  | k :: ks, n => if k ≠ 27 then frameLoop ks (n + 1) else some (n + 1)

/-- The control flow of `main`: `return -1` when the capture source is not opened,
`return -1` when an image is missing, otherwise the loop and, after it, the end of `main`
(return value 0). -/
def main (w : World) : Option Run :=
  if !w.capOpened then some { exitCode := -1, frames := 0 }
  else if !w.pfdLoaded || !w.cargobayLoaded then some { exitCode := -1, frames := 0 }
  else (frameLoop w.keys 0).map (fun n => { exitCode := 0, frames := n })

/-! ## The blended pixel and the normalisation, as the specification states them -/

/-- The largest value of a scan that has seen `m` so far. -/
def histMaxFrom (m : ℚ) : List ℚ → ℚ
  | [] => m
  | v :: t => histMaxFrom (max m v) t

/-- The smallest value of a scan that has seen `m` so far. -/
def histMinFrom (m : ℚ) : List ℚ → ℚ
  | [] => m
  | v :: t => histMinFrom (min m v) t

/-- The largest bucket value of a histogram. -/
def histMax : List ℚ → ℚ
  | [] => 0
  | v :: t => histMaxFrom v t

/-- The smallest bucket value of a histogram. -/
def histMin : List ℚ → ℚ
  | [] => 0
  | v :: t => histMinFrom v t

/-- Modelled from the spec: min-max normalisation of a histogram to the range `[a, b]`, the
linear map that takes the smallest bucket value to `a` and the largest to `b`; a histogram
whose values are all equal goes to `a`. The routine that computes it, `cv::normalize` with
`cv::NORM_MINMAX`, belongs to the imaging library and is not under `src/`. -/
def normalizeMinMax (hist : List ℚ) (a b : ℚ) : List ℚ :=
  hist.map (fun v =>
    if histMax hist = histMin hist then a
    else a + (v - histMin hist) * (b - a) / (histMax hist - histMin hist))

/-- The normalisation `main` applies to each channel histogram:
`cv::normalize(hist, hist, 0, histImage.rows, cv::NORM_MINMAX, -1, mask)`, where
`histImage` has `hist_h` rows. -/
def mainNormalize (hist : List ℚ) : List ℚ :=
  normalizeMinMax hist 0 (hist_h : ℚ)

/-- An image of the given size with every channel value equal to `v`. -/
def constMat (rows cols : Int) (v : UChar) : Mat :=
  { rows := rows, cols := cols, data := fun _ _ _ => v }

/-! ## Arithmetic lemmas -/

/-- A representable value is its own 32-bit representative. -/
theorem wrapInt32_of_isInt32 {z : Int} (h : isInt32 z) : wrapInt32 z = z := by
  unfold isInt32 at h
  unfold wrapInt32
  omega

/-- Rounding an integer value gives that integer. -/
theorem cvRound_intCast (z : Int) : cvRound (z : ℚ) = z := by
  unfold cvRound
  simp

/-- Saturation leaves a channel value as it is. -/
theorem saturateUChar_val (a : UChar) : saturateUChar (a.val : Int) = a := by
  have h := a.isLt
  unfold saturateUChar
  have h1 : ¬ ((a.val : Int) < 0) := by omega
  have h2 : ¬ (255 < (a.val : Int)) := by omega
  rw [dif_neg h1, dif_neg h2]
  apply Fin.ext
  simp

/-- With the weights (1, 0) the weighted sum is the first operand. -/
theorem addWeightedElem_one_zero (a b : UChar) : addWeightedElem a 1 b 0 0 = a := by
  unfold addWeightedElem
  have h : (a.val : ℚ) * 1 + (b.val : ℚ) * 0 + 0 = (((a.val : Int)) : ℚ) := by simp
  rw [h, cvRound_intCast, saturateUChar_val]

/-- With the weights (0, 1) the weighted sum is the second operand. -/
theorem addWeightedElem_zero_one (a b : UChar) : addWeightedElem a 0 b 1 0 = b := by
  unfold addWeightedElem
  have h : (a.val : ℚ) * 0 + (b.val : ℚ) * 1 + 0 = (((b.val : Int)) : ℚ) := by simp
  rw [h, cvRound_intCast, saturateUChar_val]

/-- A blend into a rectangle inside the destination and of the overlay's size returns the
blended image. -/
theorem blendImage_eq_some (dst ov : Mat) (roi : Option Rect) (p : ℚ) (lc lr : Int)
    (hfit : dst.roiOk (calRoi dst ov roi lc lr))
    (hw : (calRoi dst ov roi lc lr).width = ov.cols)
    (hh : (calRoi dst ov roi lc lr).height = ov.rows) :
    blendImage dst ov roi p lc lr = some
      { rows := dst.rows
        cols := dst.cols
        data := fun i j c =>
          if (calRoi dst ov roi lc lr).covers i j then
            addWeightedElem (dst.data i j c) p
              (ov.data (i - (calRoi dst ov roi lc lr).y) (j - (calRoi dst ov roi lc lr).x) c)
              (1 - p) 0
          else dst.data i j c } := by
  unfold blendImage
  rw [if_pos ⟨hfit, hw, hh⟩]

/-- The size and the pixels of the image a blend returns. -/
theorem blendImage_some_data (dst ov out : Mat) (p : ℚ) (lc lr : Int)
    (h : blendImage dst ov none p lc lr = some out) :
    out.rows = dst.rows ∧ out.cols = dst.cols ∧
    ∀ i j c, out.data i j c =
      if (calRoi dst ov none lc lr).covers i j then
        addWeightedElem (dst.data i j c) p
          (ov.data (i - (calRoi dst ov none lc lr).y) (j - (calRoi dst ov none lc lr).x) c)
          (1 - p) 0
      else dst.data i j c := by
  unfold blendImage at h
  split at h
  · cases h
    exact ⟨rfl, rfl, fun _ _ _ => rfl⟩
  · cases h

/-- A blend at a computed anchor inside the destination returns an image of the same
size. -/
theorem blendImage_fits_some (dst ov : Mat) (p : ℚ) (lc lr : Int)
    (hfit : dst.roiOk (calRoi dst ov none lc lr)) :
    ∃ out, blendImage dst ov none p lc lr = some out ∧
      out.rows = dst.rows ∧ out.cols = dst.cols :=
  ⟨_, blendImage_eq_some dst ov none p lc lr hfit rfl rfl, rfl, rfl⟩

/-- The rectangle check depends on the size of the matrix only. -/
theorem roiOk_same_size (d dst : Mat) (r : Rect)
    (hr : d.rows = dst.rows) (hc : d.cols = dst.cols) (h : dst.roiOk r) : d.roiOk r := by
  unfold Mat.roiOk at *
  rw [hr, hc]
  exact h

/-- The computed rectangle depends on the size of the destination only. -/
theorem calRoi_same_size (d dst ov : Mat) (lc lr : Int)
    (hr : d.rows = dst.rows) (hc : d.cols = dst.cols) :
    calRoi d ov none lc lr = calRoi dst ov none lc lr := by
  simp only [calRoi, hr, hc]

/-- The three computed rectangles of `main` are pairwise disjoint, also where the 32-bit
subtraction wraps. -/
theorem mainBlends_disjoint_aux (dst cargobay pfd histImage : Mat)
    (hd : dst.valid) (hc : cargobay.valid) (hp : pfd.valid) (hh : histImage.valid) :
    Rect.disjoint (calRoi dst cargobay none 0 0) (calRoi dst pfd none 0 cargobay.rows) ∧
    Rect.disjoint (calRoi dst cargobay none 0 0)
      (calRoi dst histImage none pfd.cols cargobay.rows) ∧
    Rect.disjoint (calRoi dst pfd none 0 cargobay.rows)
      (calRoi dst histImage none pfd.cols cargobay.rows) := by
  unfold Mat.valid isInt32 at hd hc hp hh
  refine ⟨?_, ?_, ?_⟩ <;>
  · intro i j
    simp only [Rect.covers, calRoi, sub32, wrapInt32]
    omega

/-! ## Default anchoring -/

/-- Claim C1: with no explicit rectangle `blendImage` changes no pixel outside the region
`calRoi`; that region has the overlay's size; with zero offsets its bottom-right corner is
the destination's bottom-right corner; and, whenever the offset subtraction is
representable as an `int`, its top-left corner is
`(dst.cols - overlay.cols - lastCols, dst.rows - overlay.rows - lastRows)`, which is the
zero-offset region moved left by `lastCols` and up by `lastRows`. -/
theorem calRoi_default_anchor (dst ov : Mat) (lastCols lastRows : Int)
    (hd : dst.valid) (ho : ov.valid) :
    (∀ (opacity : ℚ) (out : Mat),
      blendImage dst ov none opacity lastCols lastRows = some out →
      ∀ i j c, ¬ (calRoi dst ov none lastCols lastRows).covers i j →
        out.data i j c = dst.data i j c) ∧
    (calRoi dst ov none lastCols lastRows).width = ov.cols ∧
    (calRoi dst ov none lastCols lastRows).height = ov.rows ∧
    (calRoi dst ov none 0 0).width = ov.cols ∧
    (calRoi dst ov none 0 0).height = ov.rows ∧
    (calRoi dst ov none 0 0).x + (calRoi dst ov none 0 0).width = dst.cols ∧
    (calRoi dst ov none 0 0).y + (calRoi dst ov none 0 0).height = dst.rows ∧
    (isInt32 (dst.cols - ov.cols - lastCols) →
      (calRoi dst ov none lastCols lastRows).x = dst.cols - ov.cols - lastCols ∧
      (calRoi dst ov none lastCols lastRows).x = (calRoi dst ov none 0 0).x - lastCols) ∧
    (isInt32 (dst.rows - ov.rows - lastRows) →
      (calRoi dst ov none lastCols lastRows).y = dst.rows - ov.rows - lastRows ∧
      (calRoi dst ov none lastCols lastRows).y = (calRoi dst ov none 0 0).y - lastRows) := by
  refine ⟨?_, ?_⟩
  · intro opacity out hout i j c hcov
    rw [(blendImage_some_data dst ov out opacity lastCols lastRows hout).2.2 i j c,
      if_neg hcov]
  unfold Mat.valid isInt32 at hd ho
  simp only [calRoi, sub32, wrapInt32, isInt32]
  refine ⟨trivial, trivial, trivial, trivial, by omega, by omega, ?_, ?_⟩
  · intro h
    constructor <;> omega
  · intro h
    constructor <;> omega

/-- Instance of the default anchoring at an 800x600 frame, a 200x150 overlay and the offsets
`(100, 150)`. -/
theorem calRoi_default_anchor_witness :
    (constMat 600 800 0).valid ∧ (constMat 150 200 0).valid ∧
    calRoi (constMat 600 800 0) (constMat 150 200 0) none 100 150 = ⟨500, 300, 200, 150⟩ ∧
    calRoi (constMat 600 800 0) (constMat 150 200 0) none 0 0 = ⟨600, 450, 200, 150⟩ := by
  have h := calRoi_default_anchor (constMat 600 800 0) (constMat 150 200 0) 100 150
    (by decide) (by decide)
  refine ⟨by decide, by decide, ?_, by decide⟩
  obtain ⟨-, h1, h2, -, -, -, -, h7, h8⟩ := h
  have hx := (h7 (by decide)).1
  have hy := (h8 (by decide)).1
  rw [Rect.mk.injEq]
  exact ⟨by rw [hx]; rfl, by rw [hy]; rfl, h1, h2⟩

/-! ## Blending at the end points of the opacity range -/

/-- Claim C3: when the overlay fits inside the destination at the computed anchor,
`blendImage` with opacity 1.0 returns the destination with every pixel unchanged, and
`blendImage` with opacity 0.0 makes every pixel of the destination region equal to the
overlay pixel at the corresponding position. -/
theorem blendImage_opacity_one_zero (dst ov : Mat) (lastCols lastRows : Int)
    (hfit : dst.roiOk (calRoi dst ov none lastCols lastRows)) :
    (∃ out, blendImage dst ov none 1 lastCols lastRows = some out ∧
      out.rows = dst.rows ∧ out.cols = dst.cols ∧
      ∀ i j c, out.data i j c = dst.data i j c) ∧
    (∃ out, blendImage dst ov none 0 lastCols lastRows = some out ∧
      out.rows = dst.rows ∧ out.cols = dst.cols ∧
      ∀ i j c, (calRoi dst ov none lastCols lastRows).covers i j →
        out.data i j c =
          ov.data (i - (calRoi dst ov none lastCols lastRows).y)
            (j - (calRoi dst ov none lastCols lastRows).x) c) := by
  constructor
  · refine ⟨_, blendImage_eq_some dst ov none 1 lastCols lastRows hfit rfl rfl, rfl, rfl, ?_⟩
    intro i j c
    show (if _ then _ else _) = _
    split
    · simp [addWeightedElem_one_zero]
    · rfl
  · refine ⟨_, blendImage_eq_some dst ov none 0 lastCols lastRows hfit rfl rfl, rfl, rfl, ?_⟩
    intro i j c hcov
    show (if _ then _ else _) = _
    rw [if_pos hcov]
    simp [addWeightedElem_zero_one]

/-- Instance of the two end points of the opacity range at an 800x600 frame of value 10 and
a 200x150 overlay of value 200 with zero offsets. -/
theorem blendImage_opacity_one_zero_witness :
    (constMat 600 800 10).roiOk (calRoi (constMat 600 800 10) (constMat 150 200 200) none 0 0) ∧
    ((∃ out, blendImage (constMat 600 800 10) (constMat 150 200 200) none 1 0 0 = some out ∧
      out.rows = 600 ∧ out.cols = 800 ∧ ∀ i j c, out.data i j c = 10) ∧
    (∃ out, blendImage (constMat 600 800 10) (constMat 150 200 200) none 0 0 0 = some out ∧
      out.rows = 600 ∧ out.cols = 800 ∧
      ∀ i j c, (calRoi (constMat 600 800 10) (constMat 150 200 200) none 0 0).covers i j →
        out.data i j c = 200)) :=
  ⟨by decide,
    blendImage_opacity_one_zero (constMat 600 800 10) (constMat 150 200 200) 0 0 (by decide)⟩

/-! ## The 800x600 scenario -/

/-- Claim C4: for an 800x600 destination and a 200x150 overlay, `blendImage` with opacity
0.6, no explicit rectangle and zero offsets computes the region x=600, y=450, width=200,
height=150, returns an 800x600 image, writes the weighted sum into every pixel of rows
[450,600) x cols [600,800), and leaves every other pixel as it was. -/
theorem blendImage_800x600_frame (dst ov : Mat)
    (hdc : dst.cols = 800) (hdr : dst.rows = 600) (hoc : ov.cols = 200) (hor : ov.rows = 150) :
    calRoi dst ov none 0 0 = ⟨600, 450, 200, 150⟩ ∧
    ∃ out, blendImage dst ov none (6 / 10) 0 0 = some out ∧
      out.rows = 600 ∧ out.cols = 800 ∧
      (∀ i j c, 450 ≤ i ∧ i < 600 ∧ 600 ≤ j ∧ j < 800 →
        out.data i j c =
          addWeightedElem (dst.data i j c) (6 / 10) (ov.data (i - 450) (j - 600) c)
            (1 - 6 / 10) 0) ∧
      (∀ i j c, ¬ (450 ≤ i ∧ i < 600 ∧ 600 ≤ j ∧ j < 800) →
        out.data i j c = dst.data i j c) := by
  have hroi : calRoi dst ov none 0 0 = ⟨600, 450, 200, 150⟩ := by
    simp [calRoi, sub32, wrapInt32, hdc, hdr, hoc, hor]
  have hfit : dst.roiOk (calRoi dst ov none 0 0) := by
    rw [hroi]
    simp [Mat.roiOk, hdc, hdr]
  refine ⟨hroi, _, blendImage_eq_some dst ov none (6 / 10) 0 0 hfit rfl rfl, hdr, hdc, ?_, ?_⟩
  · intro i j c hin
    show (if _ then _ else _) = _
    have hcov : (calRoi dst ov none 0 0).covers i j := by
      rw [hroi]
      simp only [Rect.covers]
      omega
    rw [if_pos hcov, hroi]
  · intro i j c hout
    show (if _ then _ else _) = _
    have hcov : ¬ (calRoi dst ov none 0 0).covers i j := by
      rw [hroi]
      simp only [Rect.covers]
      omega
    rw [if_neg hcov]

/-- Instance of the 800x600 scenario at a frame of value 10 and an overlay of value 200. -/
theorem blendImage_800x600_frame_witness :
    (constMat 600 800 10).cols = 800 ∧ (constMat 600 800 10).rows = 600 ∧
    (constMat 150 200 200).cols = 200 ∧ (constMat 150 200 200).rows = 150 ∧
    calRoi (constMat 600 800 10) (constMat 150 200 200) none 0 0 = ⟨600, 450, 200, 150⟩ ∧
    ∃ out, blendImage (constMat 600 800 10) (constMat 150 200 200) none (6 / 10) 0 0
        = some out ∧
      out.rows = 600 ∧ out.cols = 800 ∧
      (∀ i j c, 450 ≤ i ∧ i < 600 ∧ 600 ≤ j ∧ j < 800 →
        out.data i j c = addWeightedElem 10 (6 / 10) 200 (1 - 6 / 10) 0) ∧
      (∀ i j c, ¬ (450 ≤ i ∧ i < 600 ∧ 600 ≤ j ∧ j < 800) → out.data i j c = 10) :=
  ⟨rfl, rfl, rfl, rfl,
    blendImage_800x600_frame (constMat 600 800 10) (constMat 150 200 200) rfl rfl rfl rfl⟩

/-! ## The three blends of one iteration -/

/-- Claim C5, as amended: on the 800x600 frame one iteration issues exactly three blends:
the mission-plan image at opacity 0.6 in the bottom-right region with zero offsets, then the
flight-director image at opacity 0.5 in its bottom-right region moved UP by the mission-plan
height (towards smaller row indices, whenever that row is representable as an `int`), then
the 200x50 histogram panel at opacity 0.6 in its bottom-right region moved left by the
flight-director width and up by the mission-plan height. -/
theorem mainBlends_order_and_regions (dst cargobay pfd histImage : Mat)
    (hdc : dst.cols = 800) (hdr : dst.rows = 600)
    (hc : cargobay.valid) (hp : pfd.valid)
    (hhc : histImage.cols = 200) (hhr : histImage.rows = 50) :
    (mainBlends cargobay pfd histImage).map (fun c => c.overlay) = [cargobay, pfd, histImage] ∧
    (mainBlends cargobay pfd histImage).map (fun c => c.opacity) = [6 / 10, 5 / 10, 6 / 10] ∧
    (mainBlends cargobay pfd histImage).map (BlendCall.region dst) =
      [ calRoi dst cargobay none 0 0,
        calRoi dst pfd none 0 cargobay.rows,
        calRoi dst histImage none pfd.cols cargobay.rows ] ∧
    calRoi dst cargobay none 0 0 =
      ⟨800 - cargobay.cols, 600 - cargobay.rows, cargobay.cols, cargobay.rows⟩ ∧
    calRoi dst pfd none 0 0 = ⟨800 - pfd.cols, 600 - pfd.rows, pfd.cols, pfd.rows⟩ ∧
    calRoi dst histImage none 0 0 = ⟨600, 550, 200, 50⟩ ∧
    (isInt32 (600 - pfd.rows - cargobay.rows) →
      calRoi dst pfd none 0 cargobay.rows =
        ⟨(calRoi dst pfd none 0 0).x, (calRoi dst pfd none 0 0).y - cargobay.rows,
          pfd.cols, pfd.rows⟩) ∧
    calRoi dst histImage none pfd.cols cargobay.rows =
      ⟨(calRoi dst histImage none 0 0).x - pfd.cols,
        (calRoi dst histImage none 0 0).y - cargobay.rows, 200, 50⟩ := by
  unfold Mat.valid isInt32 at hc hp
  refine ⟨rfl, rfl, rfl, ?_, ?_, ?_, ?_, ?_⟩
  · simp only [calRoi, sub32, wrapInt32, hdc, hdr, Rect.mk.injEq]
    refine ⟨?_, ?_, ?_, ?_⟩ <;> first | trivial | omega
  · simp only [calRoi, sub32, wrapInt32, hdc, hdr, Rect.mk.injEq]
    refine ⟨?_, ?_, ?_, ?_⟩ <;> first | trivial | omega
  · simp [calRoi, sub32, wrapInt32, hdc, hdr, hhc, hhr]
  · intro h
    unfold isInt32 at h
    simp only [calRoi, sub32, wrapInt32, hdc, hdr, Rect.mk.injEq]
    refine ⟨?_, ?_, ?_, ?_⟩ <;> first | trivial | omega
  · simp only [calRoi, sub32, wrapInt32, hdc, hdr, hhc, hhr, Rect.mk.injEq]
    refine ⟨?_, ?_, ?_, ?_⟩ <;> first | trivial | omega

/-- Instance of the three blends at a 200x150 mission-plan image and a 120x100
flight-director image. -/
theorem mainBlends_order_and_regions_witness :
    (constMat 600 800 0).cols = 800 ∧ (constMat 600 800 0).rows = 600 ∧
    (constMat 150 200 0).valid ∧ (constMat 100 120 0).valid ∧
    (constMat 50 200 0).cols = 200 ∧ (constMat 50 200 0).rows = 50 ∧
    (mainBlends (constMat 150 200 0) (constMat 100 120 0) (constMat 50 200 0)).map
        (BlendCall.region (constMat 600 800 0)) =
      [⟨600, 450, 200, 150⟩, ⟨680, 350, 120, 100⟩, ⟨480, 400, 200, 50⟩] ∧
    calRoi (constMat 600 800 0) (constMat 100 120 0) none 0 0 = ⟨680, 500, 120, 100⟩ := by
  have h := mainBlends_order_and_regions (constMat 600 800 0) (constMat 150 200 0)
    (constMat 100 120 0) (constMat 50 200 0) rfl rfl (by decide) (by decide) rfl rfl
  obtain ⟨-, -, h3, h4, h5, h6, h7, h8⟩ := h
  refine ⟨rfl, rfl, by decide, by decide, rfl, rfl, ?_, ?_⟩
  · rw [h3, h8, h7 (by decide), h4, h5, h6]
    rfl
  · rw [h5]
    rfl

/-- Claim C5 as stated fails: with a 200x150 mission-plan image and a 120x100
flight-director image the second blend goes to rows [350,450), above the zero-offset
region (rows [500,600)); moving that region 150 rows towards larger row indices would give
row 650. -/
theorem mainBlends_second_region_not_moved_down :
    (mainBlends (constMat 150 200 0) (constMat 100 120 0) (constMat 50 200 0)).map
        (BlendCall.region (constMat 600 800 0)) =
      [⟨600, 450, 200, 150⟩, ⟨680, 350, 120, 100⟩, ⟨480, 400, 200, 50⟩] ∧
    (calRoi (constMat 600 800 0) (constMat 100 120 0) none 0 0).y = 500 ∧
    ¬ ((calRoi (constMat 600 800 0) (constMat 100 120 0) none 0 (constMat 150 200 0).rows).y =
        (calRoi (constMat 600 800 0) (constMat 100 120 0) none 0 0).y
          + (constMat 150 200 0).rows) := by
  decide

/-! ## Disjointness of the three regions -/

/-- Claim C9: for every frame and all asset sizes (non-negative `int`s) the regions of the
three blends of `main` are pairwise disjoint; the first is at `(W - mw, H - mh)`, the second
at `(W - fw, H - fh - mh)` and the third at `(W - hw - fw, H - hh - mh)` whenever these
values are representable as an `int`, each with the size of its own image; and when the
three blends run, every pixel of the result is the original pixel or one blend of the
original pixel, never a blend of an already blended pixel. -/
theorem mainBlends_regions_disjoint (dst cargobay pfd histImage : Mat)
    (hd : dst.valid) (hc : cargobay.valid) (hp : pfd.valid) (hh : histImage.valid) :
    List.Pairwise Rect.disjoint
      ((mainBlends cargobay pfd histImage).map (BlendCall.region dst)) ∧
    (mainBlends cargobay pfd histImage).map (BlendCall.region dst) =
      [ calRoi dst cargobay none 0 0,
        calRoi dst pfd none 0 cargobay.rows,
        calRoi dst histImage none pfd.cols cargobay.rows ] ∧
    calRoi dst cargobay none 0 0 =
      ⟨dst.cols - cargobay.cols, dst.rows - cargobay.rows, cargobay.cols, cargobay.rows⟩ ∧
    (isInt32 (dst.rows - pfd.rows - cargobay.rows) →
      calRoi dst pfd none 0 cargobay.rows =
        ⟨dst.cols - pfd.cols, dst.rows - pfd.rows - cargobay.rows, pfd.cols, pfd.rows⟩) ∧
    (isInt32 (dst.cols - histImage.cols - pfd.cols) →
      isInt32 (dst.rows - histImage.rows - cargobay.rows) →
      calRoi dst histImage none pfd.cols cargobay.rows =
        ⟨dst.cols - histImage.cols - pfd.cols, dst.rows - histImage.rows - cargobay.rows,
          histImage.cols, histImage.rows⟩) ∧
    (dst.roiOk (calRoi dst cargobay none 0 0) →
      dst.roiOk (calRoi dst pfd none 0 cargobay.rows) →
      dst.roiOk (calRoi dst histImage none pfd.cols cargobay.rows) →
      ∃ out, applyBlends dst (mainBlends cargobay pfd histImage) = some out) ∧
    (∀ out, applyBlends dst (mainBlends cargobay pfd histImage) = some out →
      ∀ i j c, out.data i j c =
        if (calRoi dst cargobay none 0 0).covers i j then
          addWeightedElem (dst.data i j c) (6 / 10)
            (cargobay.data (i - (calRoi dst cargobay none 0 0).y)
              (j - (calRoi dst cargobay none 0 0).x) c) (1 - 6 / 10) 0
        else if (calRoi dst pfd none 0 cargobay.rows).covers i j then
          addWeightedElem (dst.data i j c) (5 / 10)
            (pfd.data (i - (calRoi dst pfd none 0 cargobay.rows).y)
              (j - (calRoi dst pfd none 0 cargobay.rows).x) c) (1 - 5 / 10) 0
        else if (calRoi dst histImage none pfd.cols cargobay.rows).covers i j then
          addWeightedElem (dst.data i j c) (6 / 10)
            (histImage.data (i - (calRoi dst histImage none pfd.cols cargobay.rows).y)
              (j - (calRoi dst histImage none pfd.cols cargobay.rows).x) c) (1 - 6 / 10) 0
        else dst.data i j c) := by
  obtain ⟨h12, h13, h23⟩ := mainBlends_disjoint_aux dst cargobay pfd histImage hd hc hp hh
  refine ⟨?_, rfl, ?_, ?_, ?_, ?_, ?_⟩
  · simp only [mainBlends, List.map, BlendCall.region, List.pairwise_cons, List.mem_cons,
      List.mem_singleton, List.not_mem_nil, forall_eq_or_imp, forall_eq, false_imp_iff,
      implies_true, List.Pairwise.nil, and_true]
    exact ⟨⟨h12, h13⟩, h23⟩
  · unfold Mat.valid isInt32 at hd hc
    simp only [calRoi, sub32, wrapInt32, Rect.mk.injEq]
    refine ⟨?_, ?_, ?_, ?_⟩ <;> first | trivial | omega
  · intro h
    unfold Mat.valid isInt32 at hd hc hp
    unfold isInt32 at h
    simp only [calRoi, sub32, wrapInt32, Rect.mk.injEq]
    refine ⟨?_, ?_, ?_, ?_⟩ <;> first | trivial | omega
  · intro h1 h2
    unfold Mat.valid isInt32 at hd hc hp hh
    unfold isInt32 at h1 h2
    simp only [calRoi, sub32, wrapInt32, Rect.mk.injEq]
    refine ⟨?_, ?_, ?_, ?_⟩ <;> first | trivial | omega
  · intro f1 f2 f3
    obtain ⟨d1, hb1, r1, c1⟩ := blendImage_fits_some dst cargobay (6 / 10) 0 0 f1
    have g2 : d1.roiOk (calRoi d1 pfd none 0 cargobay.rows) := by
      rw [calRoi_same_size d1 dst pfd 0 cargobay.rows r1 c1]
      exact roiOk_same_size d1 dst _ r1 c1 f2
    obtain ⟨d2, hb2, r2, c2⟩ := blendImage_fits_some d1 pfd (5 / 10) 0 cargobay.rows g2
    have g3 : d2.roiOk (calRoi d2 histImage none pfd.cols cargobay.rows) := by
      rw [calRoi_same_size d2 dst histImage pfd.cols cargobay.rows (r2.trans r1)
        (c2.trans c1)]
      exact roiOk_same_size d2 dst _ (r2.trans r1) (c2.trans c1) f3
    obtain ⟨d3, hb3, -, -⟩ :=
      blendImage_fits_some d2 histImage (6 / 10) pfd.cols cargobay.rows g3
    refine ⟨d3, ?_⟩
    simp only [applyBlends, mainBlends]
    rw [hb1, Option.some_bind, hb2, Option.some_bind, hb3, Option.some_bind]
  · intro out hout i j c
    simp only [applyBlends, mainBlends] at hout
    cases hb1 : blendImage dst cargobay none (6 / 10) 0 0 with
    | none => rw [hb1] at hout; cases hout
    | some d1 =>
      rw [hb1, Option.some_bind] at hout
      cases hb2 : blendImage d1 pfd none (5 / 10) 0 cargobay.rows with
      | none => rw [hb2] at hout; cases hout
      | some d2 =>
        rw [hb2, Option.some_bind] at hout
        cases hb3 : blendImage d2 histImage none (6 / 10) pfd.cols cargobay.rows with
        | none => rw [hb3] at hout; cases hout
        | some d3 =>
          rw [hb3, Option.some_bind] at hout
          cases hout
          obtain ⟨r1, c1, e1⟩ := blendImage_some_data _ _ _ _ _ _ hb1
          obtain ⟨r2, c2, e2⟩ := blendImage_some_data _ _ _ _ _ _ hb2
          obtain ⟨-, -, e3⟩ := blendImage_some_data _ _ _ _ _ _ hb3
          rw [calRoi_same_size d1 dst pfd 0 cargobay.rows r1 c1] at e2
          rw [calRoi_same_size d2 dst histImage pfd.cols cargobay.rows (r2.trans r1)
            (c2.trans c1)] at e3
          rw [e3, e2, e1]
          by_cases k1 : (calRoi dst cargobay none 0 0).covers i j
          · have k2 : ¬ (calRoi dst pfd none 0 cargobay.rows).covers i j :=
              fun k => h12 i j ⟨k1, k⟩
            have k3 : ¬ (calRoi dst histImage none pfd.cols cargobay.rows).covers i j :=
              fun k => h13 i j ⟨k1, k⟩
            simp only [if_pos k1, if_neg k2, if_neg k3]
          · by_cases k2 : (calRoi dst pfd none 0 cargobay.rows).covers i j
            · have k3 : ¬ (calRoi dst histImage none pfd.cols cargobay.rows).covers i j :=
                fun k => h23 i j ⟨k2, k⟩
              simp only [if_neg k1, if_pos k2, if_neg k3]
            · simp only [if_neg k1, if_neg k2]

/-- Instance of the disjointness at an 800x600 frame, a 200x150 mission-plan image, a
120x100 flight-director image and the 200x50 panel. -/
theorem mainBlends_regions_disjoint_witness :
    (constMat 600 800 0).valid ∧ (constMat 150 200 0).valid ∧
    (constMat 100 120 0).valid ∧ (constMat 50 200 0).valid ∧
    List.Pairwise Rect.disjoint
      [(⟨600, 450, 200, 150⟩ : Rect), ⟨680, 350, 120, 100⟩, ⟨480, 400, 200, 50⟩] ∧
    (∃ out, applyBlends (constMat 600 800 0)
      (mainBlends (constMat 150 200 0) (constMat 100 120 0) (constMat 50 200 0)) = some out) := by
  have hall := mainBlends_regions_disjoint (constMat 600 800 0) (constMat 150 200 0)
    (constMat 100 120 0) (constMat 50 200 0) (by decide) (by decide) (by decide)
    (by decide)
  have hrun := hall.2.2.2.2.2.1 (by decide) (by decide) (by decide)
  have h := hall.1
  have hl : (mainBlends (constMat 150 200 0) (constMat 100 120 0) (constMat 50 200 0)).map
        (BlendCall.region (constMat 600 800 0)) =
      [⟨600, 450, 200, 150⟩, ⟨680, 350, 120, 100⟩, ⟨480, 400, 200, 50⟩] := by decide
  rw [hl] at h
  exact ⟨by decide, by decide, by decide, by decide, h, hrun⟩

/-! ## The dial -/

/-- Claim C6: for every origin and radii one call of `embedDial` draws exactly 13 tick
segments, one for each angle 0, 10, ..., 120, joining the two points `getTick` returns for
that angle; exactly 5 labels, for the angles 0, 30, 60, 90, 120, whose text is the decimal
angle; exactly one line from the origin, which ends at the inner tick point of angle 60;
and nothing else. -/
theorem embedDial_draws {Angle : Type} (T : Trig Angle) (origin : Point) (x y : Int) :
    (embedDial T origin x y).filter (DrawCmd.isLineOfType 32) =
      [0, 10, 20, 30, 40, 50, 60, 70, 80, 90, 100, 110, 120].map (fun theta =>
        DrawCmd.line (getTick T (T.radians theta) x y origin).1
          (getTick T (T.radians theta) x y origin).2 dialColor 2 32) ∧
    ((embedDial T origin x y).filter (DrawCmd.isLineOfType 32)).length = 13 ∧
    (embedDial T origin x y).filter DrawCmd.isText =
      [(0, "0"), (30, "30"), (60, "60"), (90, "90"), (120, "120")].map (fun a =>
        DrawCmd.putText a.2
          { x := T.cosInt origin.x (add32 x 20) (T.radians a.1),
            y := T.sinInt origin.y (add32 y 20) (T.radians a.1) }
          1 1 dialColor 1 4) ∧
    ((embedDial T origin x y).filter DrawCmd.isText).length = 5 ∧
    (embedDial T origin x y).filter (DrawCmd.isLineOfType 8) =
      [DrawCmd.line origin (getTick T (T.radians 60) x y origin).1 dialColor 2 8] ∧
    (embedDial T origin x y).length = 19 := by
  have h : embedDial T origin x y =
      [0, 10, 20, 30, 40, 50, 60, 70, 80, 90, 100, 110, 120].flatMap
        (embedDialStep T origin x y) := by
    simp [embedDial, embedDialLoop, add32, wrapInt32]
  rw [h]
  exact ⟨rfl, rfl, rfl, rfl, rfl, rfl⟩

/-! ## Exit codes -/

/-- The loop ends at the first key 27, after one iteration per key read. -/
theorem frameLoop_escape (pre rest : List Int) (h : ∀ k ∈ pre, k ≠ 27) (n : Nat) :
    frameLoop (pre ++ 27 :: rest) n = some (n + pre.length + 1) := by
  induction pre generalizing n with
  | nil => simp [frameLoop]
  | cons k ks ih =>
    have hk : k ≠ 27 := h k (List.mem_cons_self k ks)
    have hks : ∀ k ∈ ks, k ≠ 27 := fun a ha => h a (List.mem_cons_of_mem k ha)
    rw [List.cons_append, frameLoop, if_pos hk, ih hks (n + 1), List.length_cons]
    congr 1
    omega

/-- Without a key 27 the loop is still running when the keys run out. -/
theorem frameLoop_no_escape (keys : List Int) (h : ∀ k ∈ keys, k ≠ 27) (n : Nat) :
    frameLoop keys n = none := by
  induction keys generalizing n with
  | nil => rfl
  | cons k ks ih =>
    have hk : k ≠ 27 := h k (List.mem_cons_self k ks)
    have hks : ∀ k ∈ ks, k ≠ 27 := fun a ha => h a (List.mem_cons_of_mem k ha)
    rw [frameLoop, if_pos hk, ih hks (n + 1)]

/-- Claim C7: `main` returns the non-zero value -1 without a single loop iteration when the
capture source is not opened, and also when it is opened and one of the two images is
missing; after a successful start-up the loop ends at the first key equal to 27 and `main`
then returns 0; as long as no key is 27 the loop does not end. -/
theorem main_exit_code :
    (∀ w : World, w.capOpened = false →
      main w = some { exitCode := -1, frames := 0 }) ∧
    (∀ w : World, w.capOpened = true → (w.pfdLoaded = false ∨ w.cargobayLoaded = false) →
      main w = some { exitCode := -1, frames := 0 }) ∧
    (∀ (w : World) (pre rest : List Int),
      w.capOpened = true → w.pfdLoaded = true → w.cargobayLoaded = true →
      (∀ k ∈ pre, k ≠ 27) → w.keys = pre ++ 27 :: rest →
      main w = some { exitCode := 0, frames := pre.length + 1 }) ∧
    (∀ w : World, w.capOpened = true → w.pfdLoaded = true → w.cargobayLoaded = true →
      (∀ k ∈ w.keys, k ≠ 27) → main w = none) := by
  refine ⟨?_, ?_, ?_, ?_⟩
  · intro w h
    simp [main, h]
  · intro w h1 h2
    rcases h2 with h2 | h2 <;> simp [main, h1, h2]
  · intro w pre rest h1 h2 h3 hpre hkeys
    simp [main, h1, h2, h3, hkeys, frameLoop_escape pre rest hpre 0]
  · intro w h1 h2 h3 hkeys
    simp [main, h1, h2, h3, frameLoop_no_escape w.keys hkeys 0]

/-- Instance of the exit codes at four environments: capture source not opened; one image
missing; the keys 13, -1, 27, 65 (three iterations); the keys 13, -1 only. -/
theorem main_exit_code_witness :
    main { capOpened := false, pfdLoaded := true, cargobayLoaded := true, keys := [27] }
      = some { exitCode := -1, frames := 0 } ∧
    main { capOpened := true, pfdLoaded := true, cargobayLoaded := false, keys := [27] }
      = some { exitCode := -1, frames := 0 } ∧
    main { capOpened := true, pfdLoaded := true, cargobayLoaded := true,
           keys := [13, -1, 27, 65] }
      = some { exitCode := 0, frames := 3 } ∧
    main { capOpened := true, pfdLoaded := true, cargobayLoaded := true, keys := [13, -1] }
      = none :=
  ⟨main_exit_code.1 _ rfl,
    main_exit_code.2.1 _ rfl (Or.inr rfl),
    main_exit_code.2.2.1 _ [13, -1] [65] rfl rfl rfl (by decide) rfl,
    main_exit_code.2.2.2 _ rfl rfl rfl (by decide)⟩

/-! ## The histogram polylines -/

/-- The bin width: `cvRound(200/256) = 1`. -/
theorem bin_w_eq_one : bin_w = 1 := by
  have hf : ⌊((200 : Int) : ℚ) / ((256 : Int) : ℚ)⌋ = 0 := by
    rw [Int.floor_eq_iff]
    norm_num
  unfold bin_w cvRound hist_w histSize
  rw [hf]
  norm_num

/-- The x-coordinate of the vertex of bucket `i`. -/
theorem histVertex_x (hist : Int → ℚ) (i : Int) (h0 : 0 ≤ i) (h1 : i ≤ 255) :
    (histVertex hist i).x = i := by
  simp only [histVertex, bin_w_eq_one, mul32, wrapInt32]
  omega

/-- The loop from `i` on, with `n` iterations left, is the sequence of its `n` bodies. -/
theorem drawHistLoop_unroll (b_hist g_hist r_hist : Int → ℚ) (n : Nat) :
    ∀ i : Int, 1 ≤ i → i + n = 256 →
      drawHistLoop b_hist g_hist r_hist i =
        (List.range n).flatMap (fun k : Nat => drawHistStep b_hist g_hist r_hist (i + k)) := by
  induction n with
  | zero =>
    intro i _ hi
    have h : ¬ (i < histSize) := by unfold histSize; omega
    rw [drawHistLoop, if_neg h]
    rfl
  | succ n ih =>
    intro i h1 hi
    have h : i < histSize := by unfold histSize; omega
    have hnext : add32 i 1 = i + 1 := by unfold add32 wrapInt32; omega
    rw [drawHistLoop, if_pos h, hnext, ih (i + 1) (by omega) (by omega),
      List.range_succ_eq_map, List.flatMap_cons, List.flatMap_map]
    congr 2
    · simp
    · funext k
      simp only [Function.comp, Nat.succ_eq_add_one]
      congr 1
      push_cast
      omega

/-- Claim C10: `bin_w` is 1; for every bucket `i` in 0..255 the polyline vertex has
x-coordinate `i` and y-coordinate `hist_h - cvRound(h[i])` (whenever that difference is
representable as an `int`); the x-coordinate is outside the column range `[0, hist_w)` of
the panel exactly for the buckets 200..255, which are 56 buckets; and the loop draws, for
`i` = 1..255 and each of the three histograms, the segment from vertex `i-1` to vertex
`i`. -/
theorem histogram_vertices_past_right_edge (b_hist g_hist r_hist : Int → ℚ) :
    bin_w = 1 ∧
    (∀ (hist : Int → ℚ) (i : Int), 0 ≤ i → i ≤ 255 →
      (histVertex hist i).x = i ∧
      (isInt32 (hist_h - cvRound (hist i)) →
        (histVertex hist i).y = hist_h - cvRound (hist i))) ∧
    (∀ (hist : Int → ℚ) (i : Int), 0 ≤ i → i ≤ 255 →
      (¬ (0 ≤ (histVertex hist i).x ∧ (histVertex hist i).x < hist_w) ↔ 200 ≤ i)) ∧
    (∀ hist : Int → ℚ,
      ((List.range 256).filter (fun i : Nat =>
        decide (¬ (0 ≤ (histVertex hist i).x ∧ (histVertex hist i).x < hist_w)))).length
        = 56) ∧
    drawHistogram b_hist g_hist r_hist =
      (List.range 255).flatMap (fun k : Nat =>
        [ DrawCmd.line (histVertex b_hist k) (histVertex b_hist (k + 1))
            { v0 := 255, v1 := 0, v2 := 0 } 2 8,
          DrawCmd.line (histVertex g_hist k) (histVertex g_hist (k + 1))
            { v0 := 0, v1 := 255, v2 := 0 } 2 8,
          DrawCmd.line (histVertex r_hist k) (histVertex r_hist (k + 1))
            { v0 := 0, v1 := 0, v2 := 255 } 2 8 ]) := by
  refine ⟨bin_w_eq_one, ?_, ?_, ?_, ?_⟩
  · intro hist i h0 h1
    refine ⟨histVertex_x hist i h0 h1, ?_⟩
    intro h
    simp only [histVertex, sub32]
    exact wrapInt32_of_isInt32 h
  · intro hist i h0 h1
    rw [histVertex_x hist i h0 h1]
    unfold hist_w
    omega
  · intro hist
    have hfilter : (List.range 256).filter (fun i : Nat =>
          decide (¬ (0 ≤ (histVertex hist i).x ∧ (histVertex hist i).x < hist_w)))
        = (List.range 256).filter (fun i : Nat => decide (200 ≤ i)) := by
      apply List.filter_congr
      intro i hi
      rw [List.mem_range] at hi
      rw [histVertex_x hist i (by omega) (by omega)]
      unfold hist_w
      apply decide_eq_decide.mpr
      omega
    rw [hfilter]
    rfl
  · unfold drawHistogram
    rw [drawHistLoop_unroll b_hist g_hist r_hist 255 1 (by omega) (by omega)]
    apply List.flatMap_congr
    intro k hk
    rw [List.mem_range] at hk
    have hcur : (1 + (k : Int)) = (k : Int) + 1 := by omega
    have hprev : sub32 ((k : Int) + 1) 1 = k := by unfold sub32 wrapInt32; omega
    simp only [drawHistStep, hcur, hprev]

/-- Instance of the histogram vertices at a histogram of constant value 25: the vertex of
bucket 200 is `(200, 25)`, which is not a column of the 200-pixel-wide panel. -/
theorem histogram_vertices_past_right_edge_witness :
    histVertex (fun _ => 25) 200 = { x := 200, y := 25 } ∧
    ¬ (0 ≤ (histVertex (fun _ => 25) 200).x ∧ (histVertex (fun _ => 25) 200).x < hist_w) := by
  have h := histogram_vertices_past_right_edge (fun _ => 25) (fun _ => 25) (fun _ => 25)
  have hr : cvRound (25 : ℚ) = 25 := cvRound_intCast 25
  have hv := h.2.1 (fun _ => 25) 200 (by decide) (by decide)
  have hy := hv.2 (by rw [hr]; decide)
  have hx := hv.1
  have hout := (h.2.2.1 (fun _ => 25) 200 (by decide) (by decide)).mpr (by decide)
  refine ⟨?_, hout⟩
  rw [Point.mk.injEq]
  exact ⟨hx, by rw [hy, hr]; rfl⟩

/-! ## The blended pixel for every opacity -/

/-- A scan for the largest value ends at or above every value it has seen. -/
theorem histMaxFrom_ge (l : List ℚ) :
    ∀ m : ℚ, m ≤ histMaxFrom m l ∧ ∀ v ∈ l, v ≤ histMaxFrom m l := by
  induction l with
  | nil => intro m; exact ⟨le_refl m, fun v hv => absurd hv (List.not_mem_nil v)⟩
  | cons a t ih =>
    intro m
    obtain ⟨h1, h2⟩ := ih (max m a)
    refine ⟨le_trans (le_max_left m a) h1, ?_⟩
    intro v hv
    rcases List.mem_cons.mp hv with rfl | hv
    · exact le_trans (le_max_right m v) h1
    · exact h2 v hv

/-- A scan for the largest value ends at a value it has seen. -/
theorem histMaxFrom_mem (l : List ℚ) :
    ∀ m : ℚ, histMaxFrom m l = m ∨ histMaxFrom m l ∈ l := by
  induction l with
  | nil => intro m; exact Or.inl rfl
  | cons a t ih =>
    intro m
    rcases ih (max m a) with h | h
    · rcases max_choice m a with hm | hm
      · left; show histMaxFrom (max m a) t = m; rw [h, hm]
      · right; show histMaxFrom (max m a) t ∈ a :: t; rw [h, hm]; exact List.mem_cons_self a t
    · right; exact List.mem_cons_of_mem a h

/-- A scan for the smallest value ends at or below every value it has seen. -/
theorem histMinFrom_le (l : List ℚ) :
    ∀ m : ℚ, histMinFrom m l ≤ m ∧ ∀ v ∈ l, histMinFrom m l ≤ v := by
  induction l with
  | nil => intro m; exact ⟨le_refl m, fun v hv => absurd hv (List.not_mem_nil v)⟩
  | cons a t ih =>
    intro m
    obtain ⟨h1, h2⟩ := ih (min m a)
    refine ⟨le_trans h1 (min_le_left m a), ?_⟩
    intro v hv
    rcases List.mem_cons.mp hv with rfl | hv
    · exact le_trans h1 (min_le_right m v)
    · exact h2 v hv

/-- A scan for the smallest value ends at a value it has seen. -/
theorem histMinFrom_mem (l : List ℚ) :
    ∀ m : ℚ, histMinFrom m l = m ∨ histMinFrom m l ∈ l := by
  induction l with
  | nil => intro m; exact Or.inl rfl
  | cons a t ih =>
    intro m
    rcases ih (min m a) with h | h
    · rcases min_choice m a with hm | hm
      · left; show histMinFrom (min m a) t = m; rw [h, hm]
      · right; show histMinFrom (min m a) t ∈ a :: t; rw [h, hm]; exact List.mem_cons_self a t
    · right; exact List.mem_cons_of_mem a h

/-- The largest bucket value is a bucket value, and no bucket value is above it. -/
theorem histMax_spec (l : List ℚ) (hl : l ≠ []) :
    histMax l ∈ l ∧ ∀ v ∈ l, v ≤ histMax l := by
  cases l with
  | nil => exact absurd rfl hl
  | cons a t =>
    obtain ⟨h1, h2⟩ := histMaxFrom_ge t a
    constructor
    · rcases histMaxFrom_mem t a with h | h
      · show histMaxFrom a t ∈ a :: t; rw [h]; exact List.mem_cons_self a t
      · exact List.mem_cons_of_mem a h
    · intro v hv
      rcases List.mem_cons.mp hv with rfl | hv
      · exact h1
      · exact h2 v hv

/-- The smallest bucket value is a bucket value, and no bucket value is below it. -/
theorem histMin_spec (l : List ℚ) (hl : l ≠ []) :
    histMin l ∈ l ∧ ∀ v ∈ l, histMin l ≤ v := by
  cases l with
  | nil => exact absurd rfl hl
  | cons a t =>
    obtain ⟨h1, h2⟩ := histMinFrom_le t a
    constructor
    · rcases histMinFrom_mem t a with h | h
      · show histMinFrom a t ∈ a :: t; rw [h]; exact List.mem_cons_self a t
      · exact List.mem_cons_of_mem a h
    · intro v hv
      rcases List.mem_cons.mp hv with rfl | hv
      · exact h1
      · exact h2 v hv

/-- A bucket value that no bucket value exceeds is the largest bucket value. -/
theorem histMax_eq (l : List ℚ) (m : ℚ) (hm : m ∈ l) (hle : ∀ v ∈ l, v ≤ m) :
    histMax l = m := by
  have hl : l ≠ [] := List.ne_nil_of_mem hm
  obtain ⟨h1, h2⟩ := histMax_spec l hl
  exact le_antisymm (hle _ h1) (h2 m hm)

/-- A bucket value that no bucket value is below is the smallest bucket value. -/
theorem histMin_eq (l : List ℚ) (m : ℚ) (hm : m ∈ l) (hle : ∀ v ∈ l, m ≤ v) :
    histMin l = m := by
  have hl : l ≠ [] := List.ne_nil_of_mem hm
  obtain ⟨h1, h2⟩ := histMin_spec l hl
  exact le_antisymm (h2 m hm) (hle _ h1)

/-- Claim C8: for a channel histogram of 256 buckets whose values are not all equal, the
min-max normalisation `main` applies, with target range `[0, histImage.rows]` and
`histImage.rows = hist_h = 50`, gives 256 values whose largest is the panel height 50 and
whose smallest is 0, every one of them in `[0, 50]`. -/
theorem mainNormalize_range (hist : List ℚ) (hlen : hist.length = 256)
    (hne : ∃ u ∈ hist, ∃ v ∈ hist, u ≠ v) :
    (hist_h : ℚ) = 50 ∧
    (mainNormalize hist).length = 256 ∧
    histMax (mainNormalize hist) = 50 ∧
    histMin (mainNormalize hist) = 0 ∧
    ∀ w ∈ mainNormalize hist, 0 ≤ w ∧ w ≤ 50 := by
  have hh : (hist_h : ℚ) = 50 := by unfold hist_h; norm_num
  obtain ⟨u, hu, v, hv, huv⟩ := hne
  have hl : hist ≠ [] := List.ne_nil_of_mem hu
  obtain ⟨hmaxmem, hmax⟩ := histMax_spec hist hl
  obtain ⟨hminmem, hmin⟩ := histMin_spec hist hl
  have hlt : histMin hist < histMax hist := by
    rcases lt_or_ge (histMin hist) (histMax hist) with h | h
    · exact h
    · exfalso
      apply huv
      have a1 := hmin u hu
      have a2 := hmax u hu
      have a3 := hmin v hv
      have a4 := hmax v hv
      linarith
  have hd : 0 < histMax hist - histMin hist := by linarith
  have hneq : ¬ (histMax hist = histMin hist) := by
    intro h
    rw [h] at hlt
    exact lt_irrefl _ hlt
  have hform : mainNormalize hist =
      hist.map (fun x => (x - histMin hist) * 50 / (histMax hist - histMin hist)) := by
    unfold mainNormalize normalizeMinMax
    rw [hh]
    apply List.map_congr_left
    intro x _
    rw [if_neg hneq]
    ring
  have hbound : ∀ w ∈ mainNormalize hist, 0 ≤ w ∧ w ≤ 50 := by
    intro w hw
    rw [hform, List.mem_map] at hw
    obtain ⟨x, hx, rfl⟩ := hw
    have b1 := hmin x hx
    have b2 := hmax x hx
    constructor
    · apply div_nonneg _ (le_of_lt hd)
      nlinarith
    · rw [div_le_iff₀ hd]
      nlinarith
  have htop : (50 : ℚ) ∈ mainNormalize hist := by
    rw [hform, List.mem_map]
    refine ⟨histMax hist, hmaxmem, ?_⟩
    field_simp
  have hbot : (0 : ℚ) ∈ mainNormalize hist := by
    rw [hform, List.mem_map]
    refine ⟨histMin hist, hminmem, ?_⟩
    simp
  refine ⟨hh, ?_, ?_, ?_, hbound⟩
  · unfold mainNormalize normalizeMinMax
    rw [List.length_map, hlen]
  · exact histMax_eq _ 50 htop (fun w hw => (hbound w hw).2)
  · exact histMin_eq _ 0 hbot (fun w hw => (hbound w hw).1)

/-- Instance of the normalised histogram at 255 buckets of value 0 and one bucket holding
all 480000 pixels of the frame. -/
theorem mainNormalize_range_witness :
    (List.replicate 255 (0 : ℚ) ++ [480000]).length = 256 ∧
    (∃ u ∈ List.replicate 255 (0 : ℚ) ++ [480000],
      ∃ v ∈ List.replicate 255 (0 : ℚ) ++ [480000], u ≠ v) ∧
    histMax (mainNormalize (List.replicate 255 (0 : ℚ) ++ [480000])) = 50 ∧
    histMin (mainNormalize (List.replicate 255 (0 : ℚ) ++ [480000])) = 0 := by
  have hlen : (List.replicate 255 (0 : ℚ) ++ [480000]).length = 256 := by
    rw [List.length_append, List.length_replicate]
    rfl
  have hne : ∃ u ∈ List.replicate 255 (0 : ℚ) ++ [480000],
      ∃ v ∈ List.replicate 255 (0 : ℚ) ++ [480000], u ≠ v :=
    ⟨0, List.mem_append_left _ (List.mem_replicate.mpr ⟨by decide, rfl⟩),
      480000, List.mem_append_right _ (List.mem_singleton_self _), by norm_num⟩
  have h := mainNormalize_range _ hlen hne
  exact ⟨hlen, hne, h.2.2.1, h.2.2.2.1⟩

end Overlay
